import Mathlib

/-!
Verification of `copy-photo.py`, a single-threaded utility that copies photo
files from a mounted camera card into a dated destination directory and
verifies the copy by comparing file counts and byte totals.

Shallow embedding notes:
* The filesystem seen by `os.walk` is modelled by `FSTree`: a directory node
  carries its directly contained files and its named subdirectories.  `os.walk`
  is top-down, so a walk yields the current directory's files first, then the
  files of each subdirectory in order.
* File metadata is a name (basename), a byte size (`os.path.getsize`) and a
  modification timestamp in whole seconds since the epoch (`os.path.getmtime`).
  `datetime.fromtimestamp` followed by `strftime("%Y%m%d")` is modelled as the
  proleptic Gregorian civil date of the timestamp (the Python code uses the
  local timezone; the model fixes UTC, which is the same strictly monotone
  conversion).
* Python string lowering and suffix testing are modelled over the character
  list of the string; the photo extensions in play are ASCII, where
  `Char.toLower` agrees with `str.lower`.
* Side effects (mount table, glob expansion, per-file copy failures) are
  passed in explicitly as functions/values; printing is dropped except where a
  claim speaks about the reported warnings, which `verify_copy` returns as a
  list of tags.
-/

/-- `str.lower()` on an ASCII string, as used on filenames and extensions. -/
def pyLower (s : String) : String :=
  ⟨s.data.map Char.toLower⟩

/-- `s.endswith(suffix)` for a single suffix: suffix test on character lists. -/
def pyEndsWith (s suffix : String) : Bool :=
  suffix.data.isSuffixOf s.data

/-- Metadata of one regular file as the script reads it: basename, byte size
(`os.path.getsize`) and modification time (`os.path.getmtime`), in seconds. -/
structure FileEntry where
  name : String
  size : Nat
  mtime : Nat
deriving DecidableEq, Repr

/-- A directory as `os.walk` traverses it: the files directly inside it and
its named subdirectories. -/
inductive FSTree where
  | mk (files : List FileEntry) (subdirs : List (String × FSTree))

mutual

/-- The files yielded by `os.walk(dir)` in top-down order: the directory's own
files, then the files of each subdirectory recursively. -/
def walkFiles : FSTree → List FileEntry
  | .mk files subdirs => files ++ walkFilesList subdirs

/-- Walk of a list of named subdirectories, in order. -/
def walkFilesList : List (String × FSTree) → List FileEntry
  | [] => []
  | (_, t) :: rest => walkFiles t ++ walkFilesList rest

end

/-- The selection predicate shared by `get_earliest_photo_date`,
`get_files_info` and `copy_with_progress`:
`file.lower().endswith(tuple(ext.lower() for ext in extensions))`. -/
def matchesExt (extensions : List String) (name : String) : Bool :=
  extensions.any (fun ext => pyEndsWith (pyLower name) (pyLower ext))

/-- The sequence of matching files produced by walking each directory in turn
and keeping exactly the files whose lowercased name ends with one of the
lowercased extensions (the loop shared by the three scanning functions). -/
def matchingFiles (directories : List FSTree) (extensions : List String) :
    List FileEntry :=
  ((directories.map walkFiles).flatten).filter (fun f => matchesExt extensions f.name)

/-- Civil (proleptic Gregorian) date of a day count since 1970-01-01,
giving (year, month, day); the conversion underlying
`datetime.fromtimestamp(t).strftime("%Y%m%d")` for non-negative seconds. -/
def civilFromDays (days : Nat) : Nat × Nat × Nat :=
  let z := days + 719468
  let era := z / 146097
  let doe := z % 146097
  let yoe := (doe - doe / 1460 + doe / 36524 - doe / 146096) / 365
  let y := yoe + era * 400
  let doy := doe - (365 * yoe + yoe / 4 - yoe / 100)
  let mp := (5 * doy + 2) / 153
  let d := doy - (153 * mp + 2) / 5 + 1
  let m := if mp < 10 then mp + 3 else mp - 9
  (if m ≤ 2 then y + 1 else y, m, d)

/-- Zero-padding to two digits, as `%m` and `%d` print. -/
def pad2 (n : Nat) : String := if n < 10 then "0" ++ toString n else toString n

/-- Zero-padding to four digits, as `%Y` prints years of interest. -/
def pad4 (n : Nat) : String :=
  if n < 10 then "000" ++ toString n
  else if n < 100 then "00" ++ toString n
  else if n < 1000 then "0" ++ toString n
  else toString n

/-- `datetime.fromtimestamp(t).strftime("%Y%m%d")` for an epoch timestamp in
seconds (rendered in UTC; see module comment). -/
def formatYYYYMMDD (t : Nat) : String :=
  let c := civilFromDays (t / 86400)
  pad4 c.1 ++ pad2 c.2.1 ++ pad2 c.2.2

/-- The `earliest_date` accumulator of `get_earliest_photo_date`: starts at
`None` and replaces the current value whenever a strictly earlier
modification time is seen. -/
def earliestAux : Option Nat → List Nat → Option Nat
  | acc, [] => acc
  | none, t :: ts => earliestAux (some t) ts
  | some e, t :: ts => earliestAux (some (if t < e then t else e)) ts

/-- `get_earliest_photo_date(photo_dirs, extensions)`: walks the directories,
tracks the minimum modification time over matching files, and formats it as
`YYYYMMDD`; raises `FileNotFoundError` (modelled as `Except.error` carrying
the lowercased extensions of the message) when no file matched. -/
def get_earliest_photo_date (photo_dirs : List FSTree)
    (extensions : List String) : Except (List String) String :=
  match earliestAux none ((matchingFiles photo_dirs extensions).map FileEntry.mtime) with
  | none => .error (extensions.map pyLower)
  | some e => .ok (formatYYYYMMDD e)

/-- `get_files_info(directories, extensions)`: the number of matching files
and their cumulative byte size, over a fresh walk of the directories. -/
def get_files_info (directories : List FSTree) (extensions : List String) :
    Nat × Nat :=
  let files := matchingFiles directories extensions
  (files.length, (files.map FileEntry.size).sum)

/-- `verify_copy(source_dirs, dest_dir, extensions)`: recomputes
(count, size) for the sources and for the destination, returning the boolean
result together with the warnings printed — `"count"` when file counts
differ (checked first, returning immediately), else `"size"` when byte
totals differ, else none. -/
def verify_copy (source_dirs : List FSTree) (dest_dir : FSTree)
    (extensions : List String) : Bool × List String :=
  let s := get_files_info source_dirs extensions
  let d := get_files_info [dest_dir] extensions
  if s.1 != d.1 then (false, ["count"])
  else if s.2 != d.2 then (false, ["size"])
  else (true, [])

/-- `shutil.copy2(file, dest_dir)` into a flat destination directory: the file
lands under its basename with size and modification time preserved,
overwriting any existing entry of the same name. -/
def copyFile (dest : List FileEntry) (f : FileEntry) : List FileEntry :=
  if dest.any (fun g => g.name == f.name) then
    dest.map (fun g => if g.name == f.name then f else g)
  else dest ++ [f]

/-- The copy loop of `copy_with_progress`: each file is attempted in order;
a per-file exception (the `i`-th attempt fails when `fails i`) is caught and
logged, leaving the destination unchanged for that file, and the loop
proceeds with the next file. -/
def copyAll (dest : List FileEntry) (files : List FileEntry)
    (fails : Nat → Bool) (i : Nat) : List FileEntry :=
  match files with
  | [] => dest
  | f :: rest => copyAll (if fails i then dest else copyFile dest f) rest fails (i + 1)

/-- `copy_with_progress(source_dirs, dest_dir, extensions)`: collects every
matching file across all source directories, returns `False` when there are
none, otherwise copies each in turn (per-file failures given by `fails`) and
returns `True`.  The result pairs the returned boolean with the destination
directory contents afterwards. -/
def copy_with_progress (source_dirs : List FSTree) (dest : List FileEntry)
    (extensions : List String) (fails : Nat → Bool) : Bool × List FileEntry :=
  if (matchingFiles source_dirs extensions).isEmpty then (false, dest)
  else (true, copyAll dest (matchingFiles source_dirs extensions) fails 0)

/-- The sublist of files whose copy attempt does not fail, numbering the
attempts from `i`: exactly the files that land in the destination. -/
def nonFailing (files : List FileEntry) (fails : Nat → Bool) (i : Nat) :
    List FileEntry :=
  match files with
  | [] => []
  | f :: rest => (if fails i then [] else [f]) ++ nonFailing rest fails (i + 1)

/-- `pattern.format(user=user, label=label)` for patterns whose replacement
fields are `{user}` and `{label}`: a single left-to-right pass that
substitutes each field with the given value (substituted text is not
rescanned). -/
def substPlaceholders (user label : String) : List Char → List Char
  | [] => []
  | '{' :: 'u' :: 's' :: 'e' :: 'r' :: '}' :: rest =>
      user.data ++ substPlaceholders user label rest
  | '{' :: 'l' :: 'a' :: 'b' :: 'e' :: 'l' :: '}' :: rest =>
      label.data ++ substPlaceholders user label rest
  | c :: rest => c :: substPlaceholders user label rest

/-- String-level wrapper of `substPlaceholders`. -/
def formatPattern (pattern user label : String) : String :=
  ⟨substPlaceholders user label pattern.data⟩

/-- The loop of `find_mount_point`: first formatted candidate that
`os.path.ismount` accepts. -/
def findMountAux (patterns : List String) (ismount : String → Bool)
    (user label : String) : Option String :=
  match patterns with
  | [] => none
  | p :: rest =>
      let mount_point := formatPattern p user label
      if ismount mount_point then some mount_point
      else findMountAux rest ismount user label

/-- `find_mount_point(config, label, user)`: iterates
`config["mount_patterns"]` in order, substituting the placeholders, and
returns the first candidate that is a mount point; otherwise raises
`FileNotFoundError` whose message carries `config["mount_patterns"]`. -/
def find_mount_point (mount_patterns : List String) (label user : String)
    (ismount : String → Bool) : Except (List String) String :=
  match findMountAux mount_patterns ismount user label with
  | some mp => .ok mp
  | none => .error mount_patterns

/-- `os.path.join(a, b)` for POSIX paths as the script uses it. -/
def pathJoin (a b : String) : String :=
  if ['/'].isPrefixOf b.data then b
  else if a = "" then b
  else if ['/'].isSuffixOf a.data then a ++ b
  else a ++ "/" ++ b

/-- `find_photo_directories(mount_point, source_patterns)`: expands each glob
pattern joined to the mount point (`globfn` gives the matches of a full
pattern, `isdir` tells directories from other entries), keeps the directory
matches in pattern order then match order, and raises `FileNotFoundError`
(carrying `source_patterns`) when nothing was kept. -/
def find_photo_directories (mount_point : String) (source_patterns : List String)
    (globfn : String → List String) (isdir : String → Bool) :
    Except (List String) (List String) :=
  if ((source_patterns.map
        (fun pattern => (globfn (pathJoin mount_point pattern)).filter isdir)).flatten).isEmpty
  then .error source_patterns
  else .ok ((source_patterns.map
        (fun pattern => (globfn (pathJoin mount_point pattern)).filter isdir)).flatten)

/-- JSON values, as far as the configuration file uses them. -/
inductive JVal where
  | str (s : String)
  | num (n : Int)
  | bool (b : Bool)
  | null
  | arr (xs : List JVal)
  | obj (fields : List (String × JVal))

/-- A parsed top-level JSON object: keys in insertion order, no duplicates in
any file Python itself wrote.  Lookups take the first occurrence. -/
abbrev ConfigObj := List (String × JVal)

/-- `DEFAULT_CONFIG` of the script, verbatim. -/
def DEFAULT_CONFIG : ConfigObj :=
  [ ("mount_patterns",
      .arr [.str "/media/{user}/{label}", .str "/run/media/{user}/{label}"]),
    ("source_patterns", .arr [.str "DCIM/*"]),
    ("photo_extensions",
      .arr [.str ".jpg", .str ".jpeg", .str ".cr2", .str ".raw"]),
    ("destination_template", .str "{date}-canon600d-{name}"),
    ("subfolders", .arr [.str "selected", .str "selected/exported"]) ]

/-- First value stored under a key. -/
def lookupKey (k : String) : ConfigObj → Option JVal
  | [] => none
  | (k2, v) :: rest => if k2 = k then some v else lookupKey k rest

/-- `key in config` for a parsed object. -/
def hasKey (cfg : ConfigObj) (k : String) : Bool :=
  cfg.any (fun kv => kv.1 == k)

/-- The backfill loop of `load_config`: each `DEFAULT_CONFIG` key absent from
the loaded object is inserted with its default value (dict insertion appends
in `DEFAULT_CONFIG` order). -/
def mergeDefaults (cfg : ConfigObj) : ConfigObj :=
  cfg ++ DEFAULT_CONFIG.filter (fun kv => !(hasKey cfg kv.1))

/-- Outcome of `load_config`: the returned configuration and the content of
the file at `config_path` afterwards. -/
structure ConfigLoadResult where
  returned : ConfigObj
  file : ConfigObj

/-- `load_config(config_path)` over the parsed content of the file at the
path (`none` when no file exists): with no file, writes `DEFAULT_CONFIG` as
JSON and returns it; with a file, parses it and backfills the missing
top-level default keys (JSON text encoding/decoding is outside the model;
a malformed file raises before this logic and is out of scope here). -/
def load_config (existing : Option ConfigObj) : ConfigLoadResult :=
  match existing with
  | none => ⟨DEFAULT_CONFIG, DEFAULT_CONFIG⟩
  | some cfg => ⟨mergeDefaults cfg, cfg⟩

/-- Directory paths as component lists; the set of directories that exist is
a list of such paths. -/
abbrev DirPath := List String

/-- Creating one directory if absent (creation order is irrelevant to the
structure; the state is read as a set). -/
def addDir (state : List DirPath) (d : DirPath) : List DirPath :=
  if d ∈ state then state else state ++ [d]

/-- The chain of directories `os.makedirs` creates for a path: every
non-empty prefix, shortest first. -/
def mkdirList (p : DirPath) : List DirPath :=
  p.inits.filter (fun q => !q.isEmpty)

/-- `os.makedirs(path, exist_ok=True)`: creates the path and all missing
ancestors; an existing directory is not an error and is left unchanged. -/
def makedirs (state : List DirPath) (p : DirPath) : List DirPath :=
  (mkdirList p).foldl addDir state

/-- `setup_destination(dest_path, subfolders)`: `makedirs` on the destination,
then on each `os.path.join(dest_path, folder)` in order. -/
def setup_destination (state : List DirPath) (dest_path : DirPath)
    (subfolders : List DirPath) : List DirPath :=
  subfolders.foldl (fun st folder => makedirs st (dest_path ++ folder))
    (makedirs state dest_path)

/-! ### Concrete scenarios used by witnesses and counterexamples -/

/-- One directory with files modified 2024-01-05, 2024-01-02 and 2024-01-09
(midnight UTC epochs). -/
def exDateDirs : List FSTree :=
  [FSTree.mk [⟨"a.jpg", 1, 1704412800⟩, ⟨"b.jpg", 1, 1704153600⟩,
              ⟨"c.jpg", 1, 1704758400⟩] []]

/-- Glob results of a card with two DCIM directories and a stray file. -/
def exGlob : String → List String := fun p =>
  if p = "/mnt/DCIM/*" then
    ["/mnt/DCIM/100CANON", "/mnt/DCIM/101CANON", "/mnt/DCIM/readme.txt"]
  else []

/-- Directory test for the same card: the two DCIM entries are directories,
the stray file is not. -/
def exIsdir : String → Bool := fun p =>
  p == "/mnt/DCIM/100CANON" || p == "/mnt/DCIM/101CANON"

/-- Two source directories holding files with the same basename: the flat
destination makes the second copy overwrite the first. -/
def cexDirs : List FSTree :=
  [FSTree.mk [⟨"a.jpg", 1, 0⟩] [], FSTree.mk [⟨"a.jpg", 2, 0⟩] []]

/-- Two source directories whose matching files have distinct basenames. -/
def wDirs : List FSTree :=
  [FSTree.mk [⟨"a.jpg", 1, 10⟩] [], FSTree.mk [⟨"b.jpg", 2, 20⟩] []]

/-! ### Helper lemmas -/

theorem filter_isEmpty_eq_not_any (p : α → Bool) (l : List α) :
    (l.filter p).isEmpty = !(l.any p) := by
  induction l with
  | nil => rfl
  | cons a l ih =>
      by_cases h : p a = true
      · simp [List.filter, List.any, h]
      · simp only [Bool.not_eq_true] at h
        simp [List.filter, List.any, h, ih]

theorem earliestAux_some (ts : List Nat) (e : Nat) :
    earliestAux (some e) ts = some (ts.foldl min e) := by
  induction ts generalizing e with
  | nil => rfl
  | cons t ts ih =>
      have hmin : (if t < e then t else e) = min e t := by
        rcases Nat.lt_or_ge t e with h | h
        · rw [if_pos h, Nat.min_eq_right (Nat.le_of_lt h)]
        · rw [if_neg (Nat.not_lt.mpr h), Nat.min_eq_left h]
      simp [earliestAux, hmin, ih]

theorem foldl_min_le_init (ts : List Nat) (e : Nat) : ts.foldl min e ≤ e := by
  induction ts generalizing e with
  | nil => exact Nat.le_refl e
  | cons t ts ih =>
      exact Nat.le_trans (ih (min e t)) (Nat.min_le_left e t)

theorem foldl_min_le_mem (ts : List Nat) (e : Nat) :
    ∀ x ∈ ts, ts.foldl min e ≤ x := by
  induction ts generalizing e with
  | nil => intro x hx; cases hx
  | cons t ts ih =>
      intro x hx
      rcases List.mem_cons.mp hx with h | h
      · subst h
        exact Nat.le_trans (foldl_min_le_init ts (min e x)) (Nat.min_le_right e x)
      · exact ih (min e t) x h

theorem foldl_min_mem (ts : List Nat) (e : Nat) :
    ts.foldl min e = e ∨ ts.foldl min e ∈ ts := by
  induction ts generalizing e with
  | nil => exact Or.inl rfl
  | cons t ts ih =>
      rcases ih (min e t) with h | h
      · rcases Nat.le_total e t with he | he
        · left; rw [List.foldl_cons, h, Nat.min_eq_left he]
        · right; rw [List.foldl_cons, h, Nat.min_eq_right he]; exact List.mem_cons_self t ts
      · right; exact List.mem_cons_of_mem t h

theorem copy_with_progress_fst (dirs : List FSTree) (dest : List FileEntry)
    (exts : List String) (fails : Nat → Bool) :
    (copy_with_progress dirs dest exts fails).1 =
      !(matchingFiles dirs exts).isEmpty := by
  unfold copy_with_progress
  cases h : (matchingFiles dirs exts).isEmpty
  · rfl
  · rfl

theorem copy_with_progress_snd (dirs : List FSTree) (dest : List FileEntry)
    (exts : List String) (fails : Nat → Bool) :
    (copy_with_progress dirs dest exts fails).2 =
      if (matchingFiles dirs exts).isEmpty then dest
      else copyAll dest (matchingFiles dirs exts) fails 0 := by
  unfold copy_with_progress
  cases h : (matchingFiles dirs exts).isEmpty
  · rfl
  · rfl

/-! ### C10 -/

/-- C10: the selection predicate used by date derivation, copying, and
verification is one and the same pure case-insensitive suffix test on the
whole filename — a file is selected iff its lowercased name ends with some
lowercased configured extension; hence the extension `"jpg"` also selects
the filename `"xjpg"`, and the filename `".jpg"` is selected by the
extension `".jpg"`. -/
theorem selection_predicate_shared :
    (∀ exts name, matchesExt exts name = true ↔
        ∃ e ∈ exts, (pyLower e).data <:+ (pyLower name).data)
    ∧ matchesExt ["jpg"] "xjpg" = true
    ∧ matchesExt [".jpg"] ".jpg" = true
    ∧ (∀ dirs exts, (get_files_info dirs exts).1 =
        ((dirs.map walkFiles).flatten).countP (fun f => matchesExt exts f.name))
    ∧ (∀ dirs dest exts fails2, (copy_with_progress dirs dest exts fails2).1 =
        ((dirs.map walkFiles).flatten).any (fun f => matchesExt exts f.name))
    ∧ (∀ dirs exts, (∃ m, get_earliest_photo_date dirs exts = .error m) ↔
        ∀ f ∈ (dirs.map walkFiles).flatten, matchesExt exts f.name = false) := by
  refine ⟨?_, by decide, by decide, ?_, ?_, ?_⟩
  · intro exts name
    simp only [matchesExt, List.any_eq_true, pyEndsWith, List.isSuffixOf_iff_suffix]
  · intro dirs exts
    simp [get_files_info, matchingFiles, List.countP_eq_length_filter]
  · intro dirs dest exts fails
    rw [copy_with_progress_fst,
        show matchingFiles dirs exts =
          ((dirs.map walkFiles).flatten).filter (fun f => matchesExt exts f.name) from rfl,
        filter_isEmpty_eq_not_any, Bool.not_not]
  · intro dirs exts
    unfold get_earliest_photo_date
    constructor
    · rintro ⟨m, hm⟩ f hf
      by_contra hmatch
      simp only [Bool.not_eq_false] at hmatch
      have hmem : f ∈ matchingFiles dirs exts :=
        List.mem_filter.mpr ⟨hf, hmatch⟩
      rcases hlist : matchingFiles dirs exts with _ | ⟨g, rest⟩
      · rw [hlist] at hmem; cases hmem
      · rw [hlist] at hm
        simp only [List.map_cons] at hm
        rw [show earliestAux none (g.mtime :: rest.map FileEntry.mtime) =
              earliestAux (some g.mtime) (rest.map FileEntry.mtime) from rfl,
            earliestAux_some] at hm
        cases hm
    · intro hall
      have hnil : matchingFiles dirs exts = [] :=
        List.filter_eq_nil_iff.mpr (fun f hf => by simp [hall f hf])
      rw [hnil]
      exact ⟨exts.map pyLower, rfl⟩

/-! ### C2 -/

/-- C2: `verify_copy` returns true iff the matching-file counts of both
sides match exactly and the matching-file byte totals match exactly;
otherwise it reports a warning — a count-mismatch and/or size-mismatch
warning, each reflecting a real mismatch of its quantity — and returns
false. -/
theorem verify_copy_iff (dirs : List FSTree) (dest : FSTree) (exts : List String) :
    ((verify_copy dirs dest exts).1 = true ↔
      (get_files_info dirs exts).1 = (get_files_info [dest] exts).1 ∧
      (get_files_info dirs exts).2 = (get_files_info [dest] exts).2)
    ∧ ((verify_copy dirs dest exts).1 = false ↔ (verify_copy dirs dest exts).2 ≠ [])
    ∧ ("count" ∈ (verify_copy dirs dest exts).2 →
        (get_files_info dirs exts).1 ≠ (get_files_info [dest] exts).1)
    ∧ ("size" ∈ (verify_copy dirs dest exts).2 →
        (get_files_info dirs exts).2 ≠ (get_files_info [dest] exts).2) := by
  by_cases h1 : (get_files_info dirs exts).1 = (get_files_info [dest] exts).1
  · by_cases h2 : (get_files_info dirs exts).2 = (get_files_info [dest] exts).2
    · simp [verify_copy, h1, h2]
    · simp [verify_copy, h1, h2]
  · simp [verify_copy, h1]

/-- Witness for C2: a one-file source against an empty destination yields
the count warning and a real count mismatch. -/
theorem verify_copy_iff_witness :
    "count" ∈ (verify_copy [FSTree.mk [⟨"a.jpg", 5, 0⟩] []] (FSTree.mk [] []) [".jpg"]).2 ∧
    (get_files_info [FSTree.mk [⟨"a.jpg", 5, 0⟩] []] [".jpg"]).1 ≠
      (get_files_info [FSTree.mk [] []] [".jpg"]).1 :=
  ⟨by decide,
   (verify_copy_iff [FSTree.mk [⟨"a.jpg", 5, 0⟩] []] (FSTree.mk [] [])
      [".jpg"]).2.2.1 (by decide)⟩

/-! ### C9 -/

/-- C9: when no file matches the extension filter on either side,
`get_files_info` yields count 0 and size 0 for both sides and `verify_copy`
returns true. -/
theorem verify_copy_vacuous (dirs : List FSTree) (dest : FSTree)
    (exts : List String) (hs : matchingFiles dirs exts = [])
    (hd : matchingFiles [dest] exts = []) :
    get_files_info dirs exts = (0, 0) ∧ get_files_info [dest] exts = (0, 0) ∧
    (verify_copy dirs dest exts).1 = true := by
  have h1 : get_files_info dirs exts = (0, 0) := by simp [get_files_info, hs]
  have h2 : get_files_info [dest] exts = (0, 0) := by simp [get_files_info, hd]
  exact ⟨h1, h2, by simp [verify_copy, h1, h2]⟩

/-- Witness for C9: entirely empty source list and empty destination. -/
theorem verify_copy_vacuous_witness :
    get_files_info [] [".jpg"] = (0, 0) ∧
    get_files_info [FSTree.mk [] []] [".jpg"] = (0, 0) ∧
    (verify_copy [] (FSTree.mk [] []) [".jpg"]).1 = true :=
  verify_copy_vacuous [] (FSTree.mk [] []) [".jpg"] rfl rfl

/-! ### C3 -/

theorem copyAll_eq_nonFailing (files : List FileEntry) (dest : List FileEntry)
    (fails : Nat → Bool) (i : Nat) :
    copyAll dest files fails i = (nonFailing files fails i).foldl copyFile dest := by
  induction files generalizing dest i with
  | nil => rfl
  | cons f rest ih =>
      cases hf : fails i
      · simp [copyAll, nonFailing, hf, ih]
      · simp [copyAll, nonFailing, hf, ih]

/-- C3: `copy_with_progress` returns false iff zero files match the
extension filter; per-file copy failures are skipped without aborting the
batch — the destination afterwards is exactly the fold of the non-failing
files, i.e. every remaining file is still attempted and copied. -/
theorem copy_with_progress_failure_tolerance (dirs : List FSTree)
    (dest : List FileEntry) (exts : List String) (fails : Nat → Bool) :
    ((copy_with_progress dirs dest exts fails).1 = false ↔
      matchingFiles dirs exts = [])
    ∧ (copy_with_progress dirs dest exts fails).2 =
        (nonFailing (matchingFiles dirs exts) fails 0).foldl copyFile dest := by
  constructor
  · simp [copy_with_progress_fst, List.isEmpty_iff]
  · by_cases h : matchingFiles dirs exts = []
    · simp [copy_with_progress_snd, h, nonFailing]
    · simp [copy_with_progress_snd, List.isEmpty_iff, h, copyAll_eq_nonFailing]

/-- Witness for C10 at concrete inputs: `"xjpg"` is selected by extension
`"jpg"`, and `get_files_info` counts exactly the walked files matching the
shared predicate. -/
theorem selection_predicate_shared_witness :
    matchesExt ["jpg"] "xjpg" = true ∧
    (get_files_info [FSTree.mk [⟨"xjpg", 3, 0⟩] []] ["jpg"]).1 =
      (([FSTree.mk [⟨"xjpg", 3, 0⟩] []].map walkFiles).flatten).countP
        (fun f => matchesExt ["jpg"] f.name) :=
  ⟨selection_predicate_shared.2.1,
   selection_predicate_shared.2.2.2.1 [FSTree.mk [⟨"xjpg", 3, 0⟩] []] ["jpg"]⟩

/-! ### C4 -/

theorem foldl_min_cons_mem (t : List Nat) (h x : Nat) (hx : x ∈ h :: t) :
    (h :: t).foldl min x = t.foldl min h := by
  apply Nat.le_antisymm
  · rcases foldl_min_mem t h with hb | hb
    · exact foldl_min_le_mem (h :: t) x _ (by rw [hb]; exact List.mem_cons_self h t)
    · exact foldl_min_le_mem (h :: t) x _ (List.mem_cons_of_mem h hb)
  · have hble : ∀ y ∈ h :: t, t.foldl min h ≤ y := by
      intro y hy
      rcases List.mem_cons.mp hy with h1 | h1
      · rw [h1]; exact foldl_min_le_init t h
      · exact foldl_min_le_mem t h y h1
    rcases foldl_min_mem (h :: t) x with ha | ha
    · rw [ha]; exact hble x hx
    · exact hble _ ha

/-- C4: over a non-empty set of matching files, `get_earliest_photo_date`
returns the minimum modification time formatted as `YYYYMMDD` (the returned
timestamp is a lower bound of every matching file's); with no matching file
anywhere it fails with `FileNotFoundError`. -/
theorem get_earliest_photo_date_spec (dirs : List FSTree) (exts : List String) :
    (matchingFiles dirs exts = [] →
      get_earliest_photo_date dirs exts = .error (exts.map pyLower))
    ∧ (∀ f ∈ matchingFiles dirs exts,
        get_earliest_photo_date dirs exts =
          .ok (formatYYYYMMDD
            (((matchingFiles dirs exts).map FileEntry.mtime).foldl min f.mtime))
        ∧ ∀ g ∈ matchingFiles dirs exts,
            ((matchingFiles dirs exts).map FileEntry.mtime).foldl min f.mtime
              ≤ g.mtime) := by
  constructor
  · intro h
    simp [get_earliest_photo_date, h, earliestAux]
  · intro f hf
    have hfm : f.mtime ∈ (matchingFiles dirs exts).map FileEntry.mtime :=
      List.mem_map_of_mem _ hf
    constructor
    · rcases hlist : matchingFiles dirs exts with _ | ⟨m, rest⟩
      · rw [hlist] at hf; cases hf
      · rw [hlist] at hfm
        simp only [List.map_cons] at hfm
        unfold get_earliest_photo_date
        rw [hlist]
        simp only [List.map_cons]
        rw [show earliestAux none (m.mtime :: List.map FileEntry.mtime rest) =
              earliestAux (some m.mtime) (List.map FileEntry.mtime rest) from rfl,
            earliestAux_some,
            foldl_min_cons_mem (List.map FileEntry.mtime rest) m.mtime f.mtime hfm]
    · intro g hg
      exact foldl_min_le_mem ((matchingFiles dirs exts).map FileEntry.mtime)
        f.mtime g.mtime (List.mem_map_of_mem _ hg)

/-- Witness for C4: the spec's example — files modified 2024-01-05,
2024-01-02, 2024-01-09 give `"20240102"` — and the error case on an empty
directory list. -/
theorem get_earliest_photo_date_spec_witness :
    get_earliest_photo_date exDateDirs [".jpg"] = Except.ok "20240102" ∧
    ((matchingFiles exDateDirs [".jpg"]).map FileEntry.mtime).foldl min 1704412800
      ≤ 1704153600 ∧
    get_earliest_photo_date [] [".jpg"] = Except.error [".jpg"] :=
  ⟨((get_earliest_photo_date_spec exDateDirs [".jpg"]).2
      ⟨"a.jpg", 1, 1704412800⟩ (by decide)).1,
   ((get_earliest_photo_date_spec exDateDirs [".jpg"]).2
      ⟨"a.jpg", 1, 1704412800⟩ (by decide)).2 ⟨"b.jpg", 1, 1704153600⟩ (by decide),
   (get_earliest_photo_date_spec [] [".jpg"]).1 rfl⟩

/-! ### C5 -/

/-- C5 (amended): `find_mount_point` iterates the configured mount-path
templates in list order, substitutes the user and label placeholders, and
returns the first candidate that is an active mount point (first match
wins); when no candidate is a mount point it fails with `FileNotFoundError`
carrying the configured template list itself (placeholders unsubstituted),
not the substituted candidate paths. -/
theorem find_mount_point_first_match (pats : List String) (label user : String)
    (ismount : String → Bool) :
    find_mount_point pats label user ismount =
      match (pats.map (fun p => formatPattern p user label)).find? ismount with
      | some mp => Except.ok mp
      | none => Except.error pats := by
  unfold find_mount_point
  have haux : findMountAux pats ismount user label =
      (pats.map (fun p => formatPattern p user label)).find? ismount := by
    induction pats with
    | nil => rfl
    | cons p rest ih =>
        simp only [findMountAux, List.map_cons, List.find?]
        cases hm : ismount (formatPattern p user label)
        · simp [hm, ih]
        · simp [hm]
  rw [haux]

/-- Counterexample for C5 as stated: with no active mount point, the raised
error carries the template `"/media/{user}/{label}"` verbatim, which differs
from the substituted candidate path `"/media/alice/EOS"` that was actually
attempted. -/
theorem find_mount_point_error_payload_cex :
    find_mount_point ["/media/{user}/{label}"] "EOS" "alice" (fun _ => false) =
      Except.error ["/media/{user}/{label}"] ∧
    formatPattern "/media/{user}/{label}" "alice" "EOS" = "/media/alice/EOS" ∧
    ("/media/{user}/{label}" : String) ≠ "/media/alice/EOS" :=
  ⟨rfl, rfl, by decide⟩

/-! ### C6 -/

/-- C6: `find_photo_directories` expands each glob pattern joined to the
mount point, keeps only the matches that are directories (file matches are
silently discarded), accumulates in pattern order then match order, and
fails with `FileNotFoundError` exactly when the combined result over all
patterns is empty. -/
theorem find_photo_directories_spec (m : String) (pats : List String)
    (g : String → List String) (d : String → Bool) :
    (∀ l, find_photo_directories m pats g d = .ok l →
        l = (pats.map (fun p => (g (pathJoin m p)).filter d)).flatten ∧
        ∀ x ∈ l, d x = true)
    ∧ (find_photo_directories m pats g d = .error pats ↔
        ∀ p ∈ pats, ∀ x ∈ g (pathJoin m p), d x = false) := by
  have key : find_photo_directories m pats g d =
      if ((pats.map (fun p => (g (pathJoin m p)).filter d)).flatten).isEmpty
      then Except.error pats
      else Except.ok ((pats.map (fun p => (g (pathJoin m p)).filter d)).flatten) := by
    unfold find_photo_directories
    cases hnil : ((pats.map (fun p => (g (pathJoin m p)).filter d)).flatten).isEmpty
    · rfl
    · rfl
  constructor
  · intro l hl
    rw [key] at hl
    by_cases hnil : ((pats.map (fun p => (g (pathJoin m p)).filter d)).flatten) = []
    · rw [if_pos (by simp [List.isEmpty_iff, hnil])] at hl
      exact Except.noConfusion hl
    · rw [if_neg (by simp [List.isEmpty_iff, hnil])] at hl
      injection hl with hl'
      subst hl'
      refine ⟨rfl, ?_⟩
      intro x hx
      rcases List.mem_flatten.mp hx with ⟨sub, hsub, hxsub⟩
      rcases List.mem_map.mp hsub with ⟨p, hp, hpe⟩
      rw [← hpe] at hxsub
      exact (List.mem_filter.mp hxsub).2
  · rw [key]
    by_cases hnil : ((pats.map (fun p => (g (pathJoin m p)).filter d)).flatten) = []
    · rw [if_pos (by simp [List.isEmpty_iff, hnil])]
      constructor
      · intro _ p hp x hx
        have hsubnil : (g (pathJoin m p)).filter d = [] :=
          List.flatten_eq_nil_iff.mp hnil _ (List.mem_map_of_mem _ hp)
        have := List.filter_eq_nil_iff.mp hsubnil x hx
        simpa using this
      · intro _; rfl
    · rw [if_neg (by simp [List.isEmpty_iff, hnil])]
      constructor
      · intro hcontra
        exact Except.noConfusion hcontra
      · intro hall
        exfalso
        apply hnil
        apply List.flatten_eq_nil_iff.mpr
        intro sub hsub
        rcases List.mem_map.mp hsub with ⟨p, hp, hpe⟩
        rw [← hpe]
        exact List.filter_eq_nil_iff.mpr (fun x hx => by simp [hall p hp x hx])

/-- Witness for C6: the spec's card layout — glob `DCIM/*` matching two
directories and a stray file yields exactly the two directories. -/
theorem find_photo_directories_spec_witness :
    find_photo_directories "/mnt" ["DCIM/*"] exGlob exIsdir =
      Except.ok ["/mnt/DCIM/100CANON", "/mnt/DCIM/101CANON"] ∧
    exIsdir "/mnt/DCIM/100CANON" = true :=
  ⟨by rfl,
   ((find_photo_directories_spec "/mnt" ["DCIM/*"] exGlob exIsdir).1
      ["/mnt/DCIM/100CANON", "/mnt/DCIM/101CANON"] (by rfl)).2
     "/mnt/DCIM/100CANON" (by decide)⟩

/-! ### C7 -/

theorem lookupKey_append (k : String) (a b : ConfigObj) :
    lookupKey k (a ++ b) =
      match lookupKey k a with
      | some v => some v
      | none => lookupKey k b := by
  induction a with
  | nil => rfl
  | cons kv rest ih =>
      obtain ⟨k2, v⟩ := kv
      by_cases h : k2 = k
      · simp [lookupKey, h]
      · simp [lookupKey, h, ih]

theorem hasKey_eq_false_iff (cfg : ConfigObj) (k : String) :
    hasKey cfg k = false ↔ lookupKey k cfg = none := by
  induction cfg with
  | nil => simp [hasKey, lookupKey]
  | cons kv rest ih =>
      obtain ⟨k2, v⟩ := kv
      by_cases h : k2 = k
      · simp [hasKey, lookupKey, h]
      · rw [show hasKey ((k2, v) :: rest) k = hasKey rest k from by simp [hasKey, h],
            show lookupKey k ((k2, v) :: rest) = lookupKey k rest from by
              simp [lookupKey, h]]
        exact ih

theorem lookupKey_filter (k : String) (l : ConfigObj) (p : String × JVal → Bool)
    (hp : ∀ v, p (k, v) = true) :
    lookupKey k (l.filter p) = lookupKey k l := by
  induction l with
  | nil => rfl
  | cons kv rest ih =>
      obtain ⟨k2, v⟩ := kv
      by_cases h : k2 = k
      · subst h
        rw [List.filter_cons, if_pos (hp v)]
        simp [lookupKey]
      · cases hpv : p (k2, v)
        · rw [List.filter_cons]
          simp [hpv, lookupKey, h, ih]
        · rw [List.filter_cons]
          simp [hpv, lookupKey, h, ih]

/-- C7: on a missing file, `load_config` writes the built-in default
configuration and returns an equal structure; on an existing file it returns
the parsed object with every top-level default key absent from it backfilled
from the defaults, leaving keys present in the file unchanged (and the file
itself untouched). -/
theorem load_config_spec :
    load_config none = ⟨DEFAULT_CONFIG, DEFAULT_CONFIG⟩ ∧
    (∀ cfg, (load_config (some cfg)).file = cfg) ∧
    (∀ cfg k, lookupKey k (load_config (some cfg)).returned =
      match lookupKey k cfg with
      | some v => some v
      | none => lookupKey k DEFAULT_CONFIG) := by
  refine ⟨rfl, fun cfg => rfl, ?_⟩
  intro cfg k
  show lookupKey k (mergeDefaults cfg) = _
  unfold mergeDefaults
  rw [lookupKey_append]
  cases h : lookupKey k cfg
  · have hk : hasKey cfg k = false := (hasKey_eq_false_iff cfg k).mpr h
    simp only []
    rw [lookupKey_filter k DEFAULT_CONFIG _ (fun v => by simp [hk])]
  · rfl

/-! ### C8 -/

theorem mem_addDir (st : List DirPath) (d x : DirPath) (hx : x ∈ st) :
    x ∈ addDir st d := by
  unfold addDir
  by_cases h : d ∈ st
  · rw [if_pos h]; exact hx
  · rw [if_neg h]; exact List.mem_append_left _ hx

theorem self_mem_addDir (st : List DirPath) (d : DirPath) : d ∈ addDir st d := by
  unfold addDir
  by_cases h : d ∈ st
  · rw [if_pos h]; exact h
  · rw [if_neg h]; exact List.mem_append_right _ (List.mem_singleton.mpr rfl)

theorem addDir_of_mem (st : List DirPath) (d : DirPath) (h : d ∈ st) :
    addDir st d = st := by
  unfold addDir
  rw [if_pos h]

theorem mem_foldl_addDir_of_mem_init (l : List DirPath) (st : List DirPath)
    (x : DirPath) (hx : x ∈ st) : x ∈ l.foldl addDir st := by
  induction l generalizing st with
  | nil => exact hx
  | cons d rest ih => exact ih (addDir st d) (mem_addDir st d x hx)

theorem mem_foldl_addDir_of_mem_list (l : List DirPath) (st : List DirPath)
    (x : DirPath) (hx : x ∈ l) : x ∈ l.foldl addDir st := by
  induction l generalizing st with
  | nil => cases hx
  | cons d rest ih =>
      rcases List.mem_cons.mp hx with h1 | h1
      · rw [h1]
        exact mem_foldl_addDir_of_mem_init rest (addDir st d) d
          (self_mem_addDir st d)
      · exact ih (addDir st d) h1

theorem foldl_addDir_of_all_mem (l : List DirPath) (st : List DirPath)
    (h : ∀ x ∈ l, x ∈ st) : l.foldl addDir st = st := by
  induction l with
  | nil => rfl
  | cons d rest ih =>
      rw [List.foldl_cons, addDir_of_mem st d (h d (List.mem_cons_self d rest))]
      exact ih (fun x hx => h x (List.mem_cons_of_mem d hx))

theorem mem_makedirs_of_mem (st : List DirPath) (p : DirPath) (x : DirPath)
    (hx : x ∈ st) : x ∈ makedirs st p :=
  mem_foldl_addDir_of_mem_init (mkdirList p) st x hx

theorem mkdir_mem_makedirs (st : List DirPath) (p : DirPath) (x : DirPath)
    (hx : x ∈ mkdirList p) : x ∈ makedirs st p :=
  mem_foldl_addDir_of_mem_list (mkdirList p) st x hx

theorem makedirs_of_all_mem (st : List DirPath) (p : DirPath)
    (h : ∀ x ∈ mkdirList p, x ∈ st) : makedirs st p = st :=
  foldl_addDir_of_all_mem (mkdirList p) st h

theorem mem_setupFold_of_mem (subs : List DirPath) (d : DirPath)
    (st : List DirPath) (x : DirPath) (hx : x ∈ st) :
    x ∈ subs.foldl (fun st2 folder => makedirs st2 (d ++ folder)) st := by
  induction subs generalizing st with
  | nil => exact hx
  | cons f rest ih => exact ih _ (mem_makedirs_of_mem st (d ++ f) x hx)

theorem subfolder_mkdirs_mem_setupFold (subs : List DirPath) (d : DirPath)
    (st : List DirPath) (f : DirPath) (hf : f ∈ subs) (x : DirPath)
    (hx : x ∈ mkdirList (d ++ f)) :
    x ∈ subs.foldl (fun st2 folder => makedirs st2 (d ++ folder)) st := by
  induction subs generalizing st with
  | nil => cases hf
  | cons f0 rest ih =>
      rcases List.mem_cons.mp hf with h1 | h1
      · rw [List.foldl_cons]
        apply mem_setupFold_of_mem
        rw [← h1]
        exact mkdir_mem_makedirs st (d ++ f) x hx
      · rw [List.foldl_cons]
        exact ih _ h1

theorem setupFold_of_all_mem (subs : List DirPath) (d : DirPath)
    (st : List DirPath)
    (h : ∀ f ∈ subs, ∀ x ∈ mkdirList (d ++ f), x ∈ st) :
    subs.foldl (fun st2 folder => makedirs st2 (d ++ folder)) st = st := by
  induction subs with
  | nil => rfl
  | cons f0 rest ih =>
      rw [List.foldl_cons,
          makedirs_of_all_mem st (d ++ f0) (h f0 (List.mem_cons_self f0 rest))]
      exact ih (fun f hf x hx => h f (List.mem_cons_of_mem f0 hf) x hx)

/-- C8: `setup_destination` is idempotent — a second run with the same
destination path and subfolder list changes nothing (pre-existing
directories are not an error; `makedirs` is modelled with
`exist_ok=True`, under which no exception is raised), so the directory
structure after two runs equals the structure after one. -/
theorem setup_destination_idempotent (st : List DirPath) (d : DirPath)
    (subs : List DirPath) :
    setup_destination (setup_destination st d subs) d subs =
      setup_destination st d subs := by
  unfold setup_destination
  have hd : ∀ x ∈ mkdirList d,
      x ∈ subs.foldl (fun st2 folder => makedirs st2 (d ++ folder))
        (makedirs st d) := by
    intro x hx
    exact mem_setupFold_of_mem subs d _ x (mkdir_mem_makedirs st d x hx)
  rw [makedirs_of_all_mem _ d hd]
  exact setupFold_of_all_mem subs d _
    (fun f hf x hx => subfolder_mkdirs_mem_setupFold subs d (makedirs st d) f hf x hx)

/-! ### C1 -/

theorem nonFailing_const_false (files : List FileEntry) (i : Nat) :
    nonFailing files (fun _ => false) i = files := by
  induction files generalizing i with
  | nil => rfl
  | cons f rest ih => simp [nonFailing, ih]

theorem copyFile_of_fresh (dest : List FileEntry) (f : FileEntry)
    (h : ∀ g ∈ dest, g.name ≠ f.name) : copyFile dest f = dest ++ [f] := by
  unfold copyFile
  rw [if_neg]
  intro hc
  rcases List.any_eq_true.mp hc with ⟨g, hg, hbeq⟩
  exact h g hg (by simpa using hbeq)

theorem foldl_copyFile_fresh (files dest : List FileEntry)
    (hdisj : ∀ f ∈ files, ∀ g ∈ dest, g.name ≠ f.name)
    (hnodup : (files.map FileEntry.name).Nodup) :
    files.foldl copyFile dest = dest ++ files := by
  induction files generalizing dest with
  | nil => simp
  | cons f rest ih =>
      rw [List.foldl_cons,
          copyFile_of_fresh dest f (hdisj f (List.mem_cons_self f rest))]
      rw [List.map_cons, List.nodup_cons] at hnodup
      rw [ih (dest ++ [f]) ?_ hnodup.2]
      · simp
      · intro f2 hf2 g hg
        rcases List.mem_append.mp hg with hg1 | hg1
        · exact hdisj f2 (List.mem_cons_of_mem f hf2) g hg1
        · rw [List.mem_singleton.mp hg1]
          intro hcontra
          exact hnodup.1 (hcontra ▸ List.mem_map_of_mem FileEntry.name hf2)

theorem matchingFiles_single_flat (fs : List FileEntry) (exts : List String) :
    matchingFiles [FSTree.mk fs []] exts =
      fs.filter (fun f => matchesExt exts f.name) := by
  simp [matchingFiles, walkFiles, walkFilesList]

/-- Counterexample for C1 as stated: two source directories each containing a
file named `a.jpg` (sizes 1 and 2); the destination is empty beforehand and
no per-file copy error occurs, `copy_with_progress` returns true, yet the
flat destination keeps only the overwriting second copy and `verify_copy`
returns false. -/
theorem copy_verify_roundtrip_cex :
    (copy_with_progress cexDirs [] [".jpg"] (fun _ => false)).1 = true ∧
    (verify_copy cexDirs
      (FSTree.mk (copy_with_progress cexDirs [] [".jpg"] (fun _ => false)).2 [])
      [".jpg"]).1 = false :=
  ⟨rfl, rfl⟩

/-- C1 (amended): the round trip holds provided the matching source files
have pairwise distinct basenames — after `copy_with_progress` copies the
matching files into an empty destination with no per-file error, the
destination holds files of the same count and byte total, and `verify_copy`
returns true.  (Without the distinctness proviso the flat destination
overwrites colliding names and the claim fails, see the counterexample.) -/
theorem copy_verify_roundtrip (dirs : List FSTree) (exts : List String)
    (hnodup : ((matchingFiles dirs exts).map FileEntry.name).Nodup) :
    get_files_info
        [FSTree.mk (copy_with_progress dirs [] exts (fun _ => false)).2 []] exts
      = get_files_info dirs exts
    ∧ (verify_copy dirs
        (FSTree.mk (copy_with_progress dirs [] exts (fun _ => false)).2 [])
        exts).1 = true := by
  have hdest : (copy_with_progress dirs [] exts (fun _ => false)).2 =
      matchingFiles dirs exts := by
    rw [copy_with_progress_snd]
    by_cases h : matchingFiles dirs exts = []
    · rw [h]; rfl
    · rw [if_neg (by simp [List.isEmpty_iff, h]),
          copyAll_eq_nonFailing, nonFailing_const_false,
          foldl_copyFile_fresh (matchingFiles dirs exts) []
            (fun f _ g hg => absurd hg (List.not_mem_nil g)) hnodup]
      simp
  have hmd : matchingFiles
      [FSTree.mk (copy_with_progress dirs [] exts (fun _ => false)).2 []] exts
      = matchingFiles dirs exts := by
    rw [hdest, matchingFiles_single_flat]
    apply List.filter_eq_self.mpr
    intro f hf
    exact (List.mem_filter.mp hf).2
  have hinfo : get_files_info
      [FSTree.mk (copy_with_progress dirs [] exts (fun _ => false)).2 []] exts
      = get_files_info dirs exts := by
    unfold get_files_info
    rw [hmd]
  exact ⟨hinfo, by simp [verify_copy, hinfo]⟩

/-- Witness for C1 (amended): two source directories with distinct basenames
round-trip and verify. -/
theorem copy_verify_roundtrip_witness :
    get_files_info
        [FSTree.mk (copy_with_progress wDirs [] [".jpg"] (fun _ => false)).2 []]
        [".jpg"]
      = get_files_info wDirs [".jpg"]
    ∧ (verify_copy wDirs
        (FSTree.mk (copy_with_progress wDirs [] [".jpg"] (fun _ => false)).2 [])
        [".jpg"]).1 = true :=
  copy_verify_roundtrip wDirs [".jpg"] (by decide)
